import Mathlib

/- Verification of the schema-flattening and table-splitting pipeline of
`source/download.py` (cricsheet ingestion).  The Python functions
`edit_and_write_info`, `edit_feather_to_sql`, `edit_and_write_innings` and
`access_dict` are shallowly embedded below.  Strings are Lean strings
(lists of characters), dataframes are association lists of named columns
together with an explicit index, and the sqlite store is a function from
relation names to optional tables; `to_sql(..., if_exists='replace')`
becomes a pointwise functional update.  The scanning helpers use fuel equal
to the length of the scanned list so that every definition is structural
and evaluable by `decide`; each scanning step consumes at least one
character, so the fuel is never exhausted. -/

/-- Python `s[1:-1]`: drop the first and the last character (empty result
for strings of length at most two). -/
def sliceInner (s : String) : String := ((s.toList.drop 1).dropLast).asString

/-- Python `str.replace` on character lists: replace each non-overlapping
occurrence of `pat` from left to right.  All patterns used below are
nonempty, so each step consumes at least one character and the fuel (the
input length) is never exhausted. -/
def replaceFuel (pat rep : List Char) : Nat → List Char → List Char
  | _, [] => []
  | 0, cs => cs
  | fuel + 1, c :: cs =>
    if pat.isPrefixOf (c :: cs) then
      rep ++ replaceFuel pat rep fuel ((c :: cs).drop pat.length)
    else
      c :: replaceFuel pat rep fuel cs

/-- Python `s.replace(pat, rep)`. -/
def pyReplace (s pat rep : String) : String :=
  (replaceFuel pat.toList rep.toList s.toList.length s.toList).asString

/-- Python `str.split` with a nonempty separator: split on each
non-overlapping occurrence from the left; the empty string yields one empty
field, exactly as in Python. -/
def splitFuel (pat : List Char) : Nat → List Char → List (List Char)
  | _, [] => [[]]
  | 0, cs => [cs]
  | fuel + 1, c :: cs =>
    if pat.isPrefixOf (c :: cs) then
      [] :: splitFuel pat fuel ((c :: cs).drop pat.length)
    else
      match splitFuel pat fuel cs with
      | [] => [[c]]
      | y :: ys => (c :: y) :: ys

/-- Python `s.split(pat)`. -/
def pySplit (s pat : String) : List String :=
  (splitFuel pat.toList s.toList.length s.toList).map List.asString

/-- Exactly `n` decimal digits from the front of the input, returning the
digits and the remainder. -/
def takeDigits : Nat → List Char → Option (List Char × List Char)
  | 0, cs => some ([], cs)
  | n + 1, c :: cs =>
    if c.isDigit then (takeDigits n cs).map (fun p => (c :: p.1, p.2)) else none
  | _ + 1, [] => none

/-- The literal `, ` separating the components of a printed
`datetime.date`. -/
def expectCommaSpace : List Char → Option (List Char)
  | ',' :: ' ' :: cs => some cs
  | _ => none

/-- One match of the regex `\d{4}, \d{2}, \d{1,2}` at the start of the
input: the matched text and the remainder.  The final `\d{1,2}` is greedy,
as in `re`; note that the month component requires exactly two digits. -/
def matchDateAt (cs : List Char) : Option (List Char × List Char) := do
  let (y, r1) ← takeDigits 4 cs
  let r2 ← expectCommaSpace r1
  let (mo, r3) ← takeDigits 2 r2
  let r4 ← expectCommaSpace r3
  let (d1, r5) ← takeDigits 1 r4
  match r5 with
  | c :: rest =>
    if c.isDigit then some (y ++ [',', ' '] ++ mo ++ [',', ' '] ++ d1 ++ [c], rest)
    else some (y ++ [',', ' '] ++ mo ++ [',', ' '] ++ d1, r5)
  | [] => some (y ++ [',', ' '] ++ mo ++ [',', ' '] ++ d1, [])

/-- `re.findall` for the date pattern: leftmost non-overlapping matches,
scanning left to right.  A successful match consumes at least one
character, so the fuel (the input length) bounds the number of steps. -/
def findAllDatesFuel : Nat → List Char → List (List Char)
  | _, [] => []
  | 0, _ => []
  | fuel + 1, c :: cs =>
    match matchDateAt (c :: cs) with
    | some (m, rest) => m :: findAllDatesFuel fuel rest
    | none => findAllDatesFuel fuel cs

/-- `re.findall(r'\d{4}, \d{2}, \d{1,2}', s)`. -/
def findAllDates (s : String) : List String :=
  (findAllDatesFuel s.toList.length s.toList).map List.asString

/-- `re.sub(r'-(\d)$', r'-0\1', s)`: zero-pad a single digit that ends the
string right after a hyphen. -/
def padFinalDigit (s : String) : String :=
  match s.toList.reverse with
  | d :: '-' :: rest => if d.isDigit then ((d :: '0' :: '-' :: rest).reverse).asString else s
  | _ => s

/-- `re.sub(r'-(\d)-', r'-0\1-', cs)`: zero-pad single digits enclosed by
hyphens, left to right, resuming after each replaced occurrence exactly as
`re.sub` does.  Fuel as above: each step consumes at least one character. -/
def padInnerDigitFuel : Nat → List Char → List Char
  | _, [] => []
  | 0, cs => cs
  | fuel + 1, c :: cs =>
    match cs with
    | d :: c2 :: rest =>
      if c = '-' && d.isDigit && c2 = '-' then c :: '0' :: d :: '-' :: padInnerDigitFuel fuel rest
      else c :: padInnerDigitFuel fuel cs
    | _ => c :: padInnerDigitFuel fuel cs

/-- `re.sub(r'-(\d)-', r'-0\1-', cs)`. -/
def padInnerDigit (cs : List Char) : List Char := padInnerDigitFuel cs.length cs

/-- The normalisation applied to each date match `y` in
`edit_and_write_info`: `y.replace(', ', '-')` and then the two `re.sub`
zero-paddings (day first, then month). -/
def padDateMatch (y : String) : String :=
  (padInnerDigit (padFinalDigit (pyReplace y ", " "-")).toList).asString

/-- The `dates` branch of `edit_and_write_info`:
`x[1:-1].replace("datetime.date", "")` followed by
`re.findall(r'\d{4}, \d{2}, \d{1,2}', ...)`, each match normalised by
`padDateMatch`. -/
def parseDates (x : String) : List String :=
  (findAllDates (pyReplace (sliceInner x) "datetime.date" "")).map padDateMatch

/-- The generic branch of `edit_and_write_info`:
`x[1:-1].replace("'", "").split(', ')`. -/
def parseGeneric (x : String) : List String :=
  pySplit (pyReplace (sliceInner x) "'" "") ", "

/-- Branch selection in the list-column loop of `edit_and_write_info`:
`if col == 'dates': ... else: ...`. -/
def parseFor (col : String) : String → List String :=
  if col = "dates" then parseDates else parseGeneric

/-- A pandas dataframe after `set_index`: the name of the index, the index
values (one per row), and the named columns in order.  A cell is `none`
when it holds pandas `None`/NaN written by the expansion loop; the cells of
the original feather columns are always strings (`aggregate_yaml_to_feather`
coerces every object column with `astype(str)`). -/
structure Frame where
  indexName : String
  index : List String
  cols : List (String × List (Option String))
deriving DecidableEq

/-- Column lookup, `df[name]` (as an `Option` instead of a `KeyError`). -/
def getCol (cols : List (String × List (Option String))) (n : String) :
    Option (List (Option String)) :=
  (cols.find? (fun p => p.1 = n)).map Prod.snd

/-- Whether a column named `n` is present. -/
def hasColumn (cols : List (String × List (Option String))) (n : String) : Bool :=
  (cols.find? (fun p => p.1 = n)).isSome

/-- `df.loc[:, n] = v`: overwrite the column in place when present,
otherwise append it as the last column — exactly the pandas assignment used
in the expansion loop of `edit_and_write_info`. -/
def setCol (cols : List (String × List (Option String))) (n : String)
    (v : List (Option String)) : List (String × List (Option String)) :=
  if hasColumn cols n then cols.map (fun p => if p.1 = n then (n, v) else p)
  else cols ++ [(n, v)]

/-- `df.drop(n, axis=1)`. -/
def dropCol (cols : List (String × List (Option String))) (n : String) :
    List (String × List (Option String)) :=
  cols.filter (fun p => p.1 ≠ n)

/-- `col[:-1]`, the basename used for the positional columns (the comment
in the source says: to e.g. turn dates into date). -/
def basename (col : String) : String := (col.toList.dropLast).asString

/-- The name `'{0:s}.{1:d}'.format(col[:-1], x + 1)` of the positional
column for 0-based position `x`. -/
def posColName (col : String) (x : Nat) : String :=
  basename col ++ "." ++ toString (x + 1)

/-- The dictionary `newcols = {x: '{0:s}.{1:d}'.format(col[:-1], x+1) for x
in range(max_length)}` as an ordered association list. -/
def pyNewcols (col : String) (max_length : Nat) : List (Nat × String) :=
  (List.range max_length).map (fun x => (x, posColName col x))

/-- The row values `[x[i] if i < len(x) else None for x in vals]` assigned
to one positional column. -/
def cellsFor (parsed : List (List String)) (i : Nat) : List (Option String) :=
  parsed.map (fun x => if i < x.length then x.get? i else none)

/-- The fixed list-typed fields of the info documents:
`list_cols_info = ['dates', 'player_of_match', 'teams', 'umpires']`. -/
def list_cols_info : List String := ["dates", "player_of_match", "teams", "umpires"]

/-- `max_length = max([len(x) for x in vals])` for nonempty `vals` (the
empty case raises and is handled by the caller). -/
def maxLength (parsed : List (List String)) : Nat :=
  (parsed.map List.length).foldl Nat.max 0

/-- The assignment loop `for i, newcol in newcols.items():
info.loc[:, newcol] = [x[i] if i < len(x) else None for x in vals]`. -/
def assignNewcols (cols : List (String × List (Option String))) (col : String)
    (parsed : List (List String)) : List (String × List (Option String)) :=
  (pyNewcols col (maxLength parsed)).foldl
    (fun cs p => setCol cs p.2 (cellsFor parsed p.1)) cols

/-- One iteration of the `for col in list_cols_info` loop of
`edit_and_write_info`: read the column (`KeyError` when absent), parse each
cell with the branch chosen by `parseFor`, compute the maximum parsed
length (`max` of an empty sequence is a `ValueError`), assign the
positional columns in order and finally drop the original column. -/
def processListCol (df : Frame) (col : String) : Except String Frame :=
  match getCol df.cols col with
  | none => .error ("KeyError: " ++ col)
  | some cells =>
    match (cells.map (fun v => v.getD "")).map (parseFor col) with
    | [] => .error "ValueError: max() arg is an empty sequence"
    | p :: ps => .ok { df with cols := dropCol (assignNewcols df.cols col (p :: ps)) col }

/-- The column rename `rename(columns={'ID': 'MATCHID'})`. -/
def renameID (raw : List (String × List String)) : List (String × List String) :=
  raw.map (fun p => (if p.1 = "ID" then "MATCHID" else p.1, p.2))

/-- `set_index('MATCHID')`: the identifier column `idc` becomes the index
and leaves the column list; the remaining cells are all strings. -/
def setIndexMatchid (renamed : List (String × List String)) (idc : String × List String) :
    Frame :=
  ⟨"MATCHID", idc.2,
    (renamed.filter (fun p => p.1 ≠ "MATCHID")).map (fun p => (p.1, p.2.map some))⟩

/-- `edit_and_write_info` (minus the feather read and write):
`rename(columns={'ID': 'MATCHID'})`, `set_index('MATCHID')` (a `KeyError`
when the column is absent), then the list-column expansion loop over
`list_cols_info`.  The raw frame is the feather content: named string
columns, one entry per row. -/
def edit_and_write_info (raw : List (String × List String)) : Except String Frame :=
  match (renameID raw).find? (fun p => p.1 = "MATCHID") with
  | none => .error "KeyError: MATCHID"
  | some idc => list_cols_info.foldlM processListCol (setIndexMatchid (renameID raw) idc)

/-- `edit_and_write_innings` is a stub in the source: `return None`. -/
def edit_and_write_innings : Option Frame := none

/-- Whether a column name contains a period: `df.filter(regex='\.')` keeps
exactly the columns whose name contains a `.` somewhere. -/
def hasPeriod (c : String) : Bool := c.toList.contains '.'

/-- `col[:col.index('.')]`: the text before the first period (the whole
name when there is none, a case the source never reaches because
`tableName` is only applied to period columns). -/
def tableName (c : String) : String := (c.toList.takeWhile (fun ch => ch ≠ '.')).asString

/-- The period columns of a frame, `period_df = df.filter(regex='\.')`. -/
def periodCols (df : Frame) : List (String × List (Option String)) :=
  df.cols.filter (fun p => hasPeriod p.1)

/-- The no-period columns,
`no_period_df = df.drop(df.filter(regex='\.').columns, axis=1)`. -/
def noPeriodCols (df : Frame) : List (String × List (Option String)) :=
  df.cols.filter (fun p => !hasPeriod p.1)

/-- Name-level versions used to state the routing claims. -/
def periodNames (names : List String) : List String := names.filter hasPeriod

/-- Names without a period, in order. -/
def noPeriodNames (names : List String) : List String :=
  names.filter (fun c => !hasPeriod c)

/-- One step of building `col_to_table`: append `c` to the bucket for key
`t`, creating the bucket at the end when the key is new — the insertion
behaviour of the Python dict of lists. -/
def addToGroups : List (String × List String) → String → String → List (String × List String)
  | [], t, c => [(t, [c])]
  | (k, cs) :: rest, t, c =>
    if k = t then (k, cs ++ [c]) :: rest else (k, cs) :: addToGroups rest t c

/-- `col_to_table`: for each period column, in order, append it to the
bucket named by the text before its first period. -/
def colToTable (cols : List String) : List (String × List String) :=
  cols.foldl (fun g c => addToGroups g (tableName c) c) []

/-- `tmp = period_df[col_to_table[tbl]]`: the satellite frame for one
bucket, keeping the document-identifier index (`to_sql` writes the index as
a column). -/
def selectFrame (df : Frame) (names : List String) : Frame :=
  ⟨df.indexName, df.index, names.filterMap (fun n => (getCol df.cols n).map (fun v => (n, v)))⟩

/-- The sqlite database as a map from relation name to current content. -/
def Store := String → Option Frame

/-- `to_sql(name, con=conn, if_exists='replace')`: full replacement of the
relation with that name. -/
def writeReplace (s : Store) (n : String) (t : Frame) : Store :=
  fun m => if m = n then some t else s m

/-- Play a list of replace-writes in order. -/
def applyWrites (s : Store) (ws : List (String × Frame)) : Store :=
  ws.foldl (fun s p => writeReplace s p.1 p.2) s

/-- The writes performed for one dataframe in `edit_feather_to_sql`: the
no-period columns under the caller-supplied primary name, then one
satellite relation per period-prefix bucket, every written relation keeping
the document-identifier index. -/
def writesOf (dbname : String) (df : Frame) : List (String × Frame) :=
  (dbname, ⟨df.indexName, df.index, noPeriodCols df⟩) ::
    (colToTable ((periodCols df).map Prod.fst)).map (fun g => (g.1, selectFrame df g.2))

/-- The body of the `for df, dbname in [...]` loop for one dataframe. -/
def writeTables (s : Store) (dbname : String) (df : Frame) : Store :=
  applyWrites s (writesOf dbname df)

/-- The Python error message raised when the loop body evaluates
`None.filter(regex='\.')` for the innings stub. -/
def attrErr : String := "AttributeError: NoneType object has no attribute filter"

/-- The `for df, dbname in [(info, 'matchinfo'), (innings, 'innings')]`
loop: each present dataframe is written; a `None` dataframe raises, ending
the run with the store as written so far. -/
def runPairs : Store → List (Option Frame × String) → Store × Option String
  | s, [] => (s, none)
  | s, (some df, dbname) :: rest => runPairs (writeTables s dbname df) rest
  | s, (none, _) :: _ => (s, some attrErr)

/-- `edit_feather_to_sql` for one batch: build the edited info frame, take
the innings stub, then run the write loop.  The result is the final store
plus the uncaught error, if any. -/
def edit_feather_to_sql (s : Store) (raw : List (String × List String)) :
    Store × Option String :=
  match edit_and_write_info raw with
  | .error e => (s, some e)
  | .ok df => runPairs s [(some df, "matchinfo"), (edit_and_write_innings, "innings")]

/-- A Python value that can be a subscript key: strings, integers and
(nested) tuples — the shapes that occur in `access_dict`, whose recursive
call subscripts with the tuple `keys[1:]`. -/
inductive PyKey where
  | kstr (s : String)
  | kint (n : Int)
  | ktup (ks : List PyKey)

mutual

/-- Structural equality of keys, the Python `==` used by dict lookup. -/
def beqKey : PyKey → PyKey → Bool
  | .kstr a, .kstr b => a = b
  | .kint a, .kint b => a = b
  | .ktup as, .ktup bs => beqKeyList as bs
  | _, _ => false

/-- Elementwise equality of key tuples. -/
def beqKeyList : List PyKey → List PyKey → Bool
  | [], [] => true
  | a :: as, b :: bs => beqKey a b && beqKeyList as bs
  | _, _ => false

end

/-- A Python value as stored in the nested documents: `None`, integers,
strings, lists, and dicts with hashable keys. -/
inductive PyVal where
  | vnone
  | vint (n : Int)
  | vstr (s : String)
  | vlist (xs : List PyVal)
  | vdict (entries : List (PyKey × PyVal))

/-- The Python exceptions distinguished by `access_dict`. -/
inductive PyExc where
  | keyError
  | valueError
  | indexError
  | typeError
deriving DecidableEq

/-- Dict lookup by `==` on keys. -/
def dictGet : List (PyKey × PyVal) → PyKey → Option PyVal
  | [], _ => none
  | (k, v) :: rest, key => if beqKey k key then some v else dictGet rest key

/-- Python subscription `dct[key]`: dict lookup (`KeyError` when absent),
list indexing with an integer (negative indices wrap once; out of range is
`IndexError`; a non-integer index is a `TypeError`), string indexing, and
`TypeError` for non-subscriptable values. -/
def subscript : PyVal → PyKey → Except PyExc PyVal
  | .vdict kvs, k =>
    match dictGet kvs k with
    | some v => .ok v
    | none => .error .keyError
  | .vlist xs, .kint i =>
    let j : Int := if i < 0 then i + xs.length else i
    if h : 0 ≤ j ∧ j.toNat < xs.length then .ok (xs.get ⟨j.toNat, h.2⟩)
    else .error .indexError
  | .vlist _, _ => .error .typeError
  | .vstr s, .kint i =>
    let j : Int := if i < 0 then i + s.length else i
    if h : 0 ≤ j ∧ j.toNat < s.toList.length then .ok (.vstr ((s.toList.get ⟨j.toNat, h.2⟩).toString))
    else .error .indexError
  | .vstr _, _ => .error .typeError
  | .vnone, _ => .error .typeError
  | .vint _, _ => .error .typeError

/-- `access_dict(dct, *keys)` as written in the source, including the slip
in the recursive call: `access_dict(dct[keys[0]], keys[1:])` passes the
remaining keys as ONE positional argument, so the inner frame sees the
single key `tuple(keys[1:])`.  Each frame catches `KeyError`, `ValueError`
and `IndexError` from its own body (returning `None`); any other exception
propagates.  Recursion always descends into the result of a successful
subscription, a structurally smaller value, so fuel `sizeOf dct` is never
exhausted. -/
def accessDictFuel : Nat → PyVal → List PyKey → Except PyExc (Option PyVal)
  | 0, _, _ => .error .typeError
  | fuel + 1, dct, keys =>
    let body : Except PyExc (Option PyVal) :=
      match keys with
      | [] => .ok (some dct)
      | k :: rest =>
        match subscript dct k with
        | .error e => .error e
        | .ok v => accessDictFuel fuel v [PyKey.ktup rest]
    match body with
    | .error .keyError => .ok none
    | .error .valueError => .ok none
    | .error .indexError => .ok none
    | other => other

mutual

/-- Nesting depth of a value, used to bound the recursion of
`access_dict`. -/
def pyDepth : PyVal → Nat
  | .vnone => 1
  | .vint _ => 1
  | .vstr _ => 1
  | .vlist xs => 1 + pyDepthList xs
  | .vdict kvs => 1 + pyDepthEntries kvs

/-- Depth of the deepest list element. -/
def pyDepthList : List PyVal → Nat
  | [] => 0
  | x :: xs => Nat.max (pyDepth x) (pyDepthList xs)

/-- Depth of the deepest dict value. -/
def pyDepthEntries : List (PyKey × PyVal) → Nat
  | [] => 0
  | kv :: rest => Nat.max (pyDepth kv.2) (pyDepthEntries rest)

end

/-- `access_dict(dct, *keys)`.  Every successful dict or list subscription
yields a value of strictly smaller depth, and a string subscription yields
a depth-one string whose own subscription by the tuple key fails at the
next step, so fuel `pyDepth dct + 2` is never exhausted. -/
def access_dict (dct : PyVal) (keys : List PyKey) : Except PyExc (Option PyVal) :=
  accessDictFuel (pyDepth dct + 2) dct keys

/-- Modelled from the spec wording of the basename rule, for comparison
with the code: the field name with its trailing pluralizing character
stripped — strip a final `s` and leave a name without one unchanged. -/
def stripPluralMarker (col : String) : String :=
  if col.toList.getLast? = some 's' then (col.toList.dropLast).asString else col

/-- Python `str(...)` of a list of strings, as `astype(str)` renders a
list-valued cell in `aggregate_yaml_to_feather`. -/
def pyStrList (l : List String) : String :=
  "[" ++ String.intercalate ", " (l.map (fun s => "'" ++ s ++ "'")) ++ "]"

/-- Python `str(float('nan'))`, the cell written by `astype(str)` in
`aggregate_yaml_to_feather` for a document that lacks the field (the
`pd.concat` union fills the hole with NaN). -/
def nanCell : String := "nan"

/-- First-of for optional values: the left value when present, otherwise
the fallback. -/
def orElseO {α : Type} : Option α → Option α → Option α
  | some u, _ => some u
  | none, a => a

/-- The last write to relation `n` in a list of writes. -/
def lastAssign (ws : List (String × Frame)) (n : String) : Option Frame :=
  ws.foldl (fun acc p => if p.1 = n then some p.2 else acc) none

/-- The bucket that `colToTable` computes for key `k`: the processed
columns whose prefix before the first period is `k`, in order. -/
def bucketSpec (processed : List String) (k : String) : List String :=
  processed.filter (fun c => tableName c = k)

/-- A sample one-row feather frame for an info document (identifier 7, a
venue, a nested outcome field, and the four declared list fields). -/
def sampleRaw : List (String × List String) :=
  [("ID", ["7"]), ("venue", ["MCG"]), ("outcome.winner", ["India"]),
   ("dates", ["[datetime.date(2020, 10, 5)]"]), ("player_of_match", ["['V Kohli']"]),
   ("teams", ["['India', 'Australia']"]), ("umpires", ["['A B', 'C D']"])]

lemma lastAssign_restart (n : String) (ws : List (String × Frame)) (a : Option Frame) :
    ws.foldl (fun acc p => if p.1 = n then some p.2 else acc) a
      = orElseO (ws.foldl (fun acc p => if p.1 = n then some p.2 else acc) none) a := by
  induction ws generalizing a with
  | nil => simp [orElseO]
  | cons p ws ih =>
    simp only [List.foldl_cons]
    rw [ih, ih (if p.1 = n then some p.2 else none)]
    cases h : ws.foldl (fun acc q => if q.1 = n then some q.2 else acc) none with
    | some u => simp [orElseO]
    | none =>
      by_cases hp : p.1 = n <;> simp [orElseO, hp]

lemma applyWrites_apply (ws : List (String × Frame)) (s : Store) (n : String) :
    applyWrites s ws n = orElseO (lastAssign ws n) (s n) := by
  induction ws generalizing s with
  | nil => simp [applyWrites, lastAssign, orElseO]
  | cons p ws ih =>
    simp only [applyWrites, List.foldl_cons] at *
    rw [ih]
    have : lastAssign (p :: ws) n = orElseO (lastAssign ws n) (if p.1 = n then some p.2 else none) := by
      simp only [lastAssign, List.foldl_cons]
      exact lastAssign_restart n ws _
    rw [this]
    cases h : lastAssign ws n with
    | some u => simp [orElseO]
    | none =>
      by_cases hp : p.1 = n
      · subst hp; simp [orElseO, writeReplace]
      · have hp2 : ¬ n = p.1 := fun h2 => hp h2.symm
        simp [orElseO, writeReplace, hp, hp2]

lemma applyWrites_idem (s : Store) (ws : List (String × Frame)) :
    applyWrites (applyWrites s ws) ws = applyWrites s ws := by
  funext n
  rw [applyWrites_apply, applyWrites_apply]
  cases h : lastAssign ws n <;> simp [orElseO]

lemma writeTables_idem (s : Store) (dbname : String) (df : Frame) :
    writeTables (writeTables s dbname df) dbname df = writeTables s dbname df :=
  applyWrites_idem _ _

lemma processListCol_index {df df' : Frame} {col : String}
    (h : processListCol df col = .ok df') :
    df'.indexName = df.indexName ∧ df'.index = df.index := by
  unfold processListCol at h
  split at h
  · cases h
  · split at h
    · cases h
    · cases h
      exact ⟨rfl, rfl⟩

lemma foldlM_processListCol_index :
    ∀ (l : List String) (df df' : Frame),
      List.foldlM processListCol df l = .ok df' →
      df'.indexName = df.indexName ∧ df'.index = df.index := by
  intro l
  induction l with
  | nil =>
    intro df df' h
    simp only [List.foldlM] at h
    cases h
    exact ⟨rfl, rfl⟩
  | cons a l ih =>
    intro df df' h
    simp only [List.foldlM] at h
    cases ha : processListCol df a with
    | error e => rw [ha] at h; cases h
    | ok mid =>
      rw [ha] at h
      simp only [bind, Except.bind] at h
      obtain ⟨h1, h2⟩ := ih mid df' h
      obtain ⟨h3, h4⟩ := processListCol_index ha
      exact ⟨h1.trans h3, h2.trans h4⟩

lemma bucketSpec_append (processed : List String) (c k : String) :
    bucketSpec (processed ++ [c]) k
      = bucketSpec processed k ++ if tableName c = k then [c] else [] := by
  simp only [bucketSpec, List.filter_append, List.filter_cons, List.filter_nil]
  by_cases h : tableName c = k <;> simp [h]

lemma bucketSpec_eq_nil {processed : List String} {g : List (String × List String)} {t : String}
    (h3 : ∀ x ∈ processed, tableName x ∈ g.map Prod.fst)
    (hnot : t ∉ g.map Prod.fst) : bucketSpec processed t = [] := by
  rw [bucketSpec, List.filter_eq_nil_iff]
  intro x hx
  simp only [decide_eq_true_eq]
  intro heq
  exact hnot (heq ▸ h3 x hx)

lemma addToGroups_fst (g : List (String × List String)) (t c : String) :
    (addToGroups g t c).map Prod.fst =
      if t ∈ g.map Prod.fst then g.map Prod.fst else g.map Prod.fst ++ [t] := by
  induction g with
  | nil => simp [addToGroups]
  | cons q g ih =>
    obtain ⟨k, cs⟩ := q
    by_cases h : k = t
    · subst h
      simp [addToGroups]
    · simp only [addToGroups, if_neg h, List.map_cons]
      rw [ih]
      by_cases h2 : t ∈ g.map Prod.fst
      · simp [h2, Ne.symm h]
      · simp [h2, Ne.symm h]

lemma addToGroups_nodup {g : List (String × List String)} (t c : String)
    (h : (g.map Prod.fst).Nodup) : ((addToGroups g t c).map Prod.fst).Nodup := by
  rw [addToGroups_fst]
  by_cases ht : t ∈ g.map Prod.fst
  · simpa [ht]
  · simp [ht, List.nodup_append, h]

lemma addToGroups_covers (g : List (String × List String)) (t c : String) :
    ∀ k, k ∈ g.map Prod.fst ∨ k = t → k ∈ (addToGroups g t c).map Prod.fst := by
  intro k hk
  rw [addToGroups_fst]
  by_cases h : t ∈ g.map Prod.fst
  · simp only [if_pos h]
    rcases hk with hk | hk
    · exact hk
    · exact hk ▸ h
  · simp only [if_neg h, List.mem_append, List.mem_singleton]
    rcases hk with hk | hk
    · exact Or.inl hk
    · exact Or.inr hk

lemma addToGroups_buckets (c : String) :
    ∀ (g : List (String × List String)) (processed : List String),
      (g.map Prod.fst).Nodup →
      (∀ p ∈ g, p.2 = bucketSpec processed p.1) →
      (tableName c ∉ g.map Prod.fst → bucketSpec processed (tableName c) = []) →
      ∀ p ∈ addToGroups g (tableName c) c, p.2 = bucketSpec (processed ++ [c]) p.1 := by
  intro g
  induction g with
  | nil =>
    intro processed _ _ hmiss p hp
    simp only [addToGroups, List.mem_singleton] at hp
    subst hp
    simp [bucketSpec_append, hmiss (by simp)]
  | cons q g ih =>
    intro processed hnodup h2 hmiss p hp
    obtain ⟨k, cs⟩ := q
    have hnodup2 : k ∉ g.map Prod.fst ∧ (g.map Prod.fst).Nodup := by
      simpa [List.nodup_cons] using hnodup
    by_cases hk : k = tableName c
    · subst hk
      rw [addToGroups, if_pos rfl] at hp
      rcases List.mem_cons.mp hp with rfl | hp
      · have hcs : cs = bucketSpec processed (tableName c) := h2 (tableName c, cs) (by simp)
        simp [bucketSpec_append, hcs]
      · have hp2 : p.2 = bucketSpec processed p.1 := h2 p (List.mem_cons_of_mem _ hp)
        have hne : tableName c ≠ p.1 := by
          intro he
          exact hnodup2.1 (he ▸ List.mem_map_of_mem Prod.fst hp)
        simp [bucketSpec_append, hp2, hne]
    · rw [addToGroups, if_neg hk] at hp
      rcases List.mem_cons.mp hp with rfl | hp
      · have hcs : cs = bucketSpec processed k := h2 (k, cs) (by simp)
        have hne : tableName c ≠ k := fun he => hk he.symm
        simp [bucketSpec_append, hcs, hne]
      · refine ih processed hnodup2.2 (fun q hq => h2 q (List.mem_cons_of_mem _ hq)) ?_ p hp
        intro hnot
        refine hmiss ?_
        simp only [List.map_cons, List.mem_cons]
        rintro (he | he)
        · exact hk he.symm
        · exact hnot he

lemma colToTable_inv :
    ∀ (ns : List String) (g : List (String × List String)) (processed : List String),
      (g.map Prod.fst).Nodup →
      (∀ p ∈ g, p.2 = bucketSpec processed p.1) →
      (∀ x ∈ processed, tableName x ∈ g.map Prod.fst) →
      (((ns.foldl (fun g c => addToGroups g (tableName c) c) g).map Prod.fst).Nodup
        ∧ (∀ p ∈ ns.foldl (fun g c => addToGroups g (tableName c) c) g,
            p.2 = bucketSpec (processed ++ ns) p.1)
        ∧ (∀ x ∈ processed ++ ns,
            tableName x ∈ (ns.foldl (fun g c => addToGroups g (tableName c) c) g).map Prod.fst)) := by
  intro ns
  induction ns with
  | nil =>
    intro g processed h1 h2 h3
    simp only [List.foldl_nil, List.append_nil]
    exact ⟨h1, h2, h3⟩
  | cons c ns ih =>
    intro g processed h1 h2 h3
    simp only [List.foldl_cons]
    have hmiss : tableName c ∉ g.map Prod.fst → bucketSpec processed (tableName c) = [] :=
      fun hnot => bucketSpec_eq_nil h3 hnot
    have step1 := addToGroups_nodup (tableName c) c h1
    have step2 := addToGroups_buckets c g processed h1 h2 hmiss
    have step3 : ∀ x ∈ processed ++ [c], tableName x ∈ (addToGroups g (tableName c) c).map Prod.fst := by
      intro x hx
      rcases List.mem_append.mp hx with hx | hx
      · exact addToGroups_covers g _ c _ (Or.inl (h3 x hx))
      · rw [List.mem_singleton.mp hx]
        exact addToGroups_covers g _ c _ (Or.inr rfl)
    obtain ⟨r1, r2, r3⟩ := ih (addToGroups g (tableName c) c) (processed ++ [c]) step1 step2 step3
    refine ⟨r1, ?_, ?_⟩
    · intro p hp
      have hr := r2 p hp
      rwa [List.append_assoc, List.singleton_append] at hr
    · intro x hx
      apply r3
      rwa [List.append_assoc, List.singleton_append]

lemma colToTable_keys_nodup (ns : List String) : ((colToTable ns).map Prod.fst).Nodup :=
  (colToTable_inv ns [] [] (by simp) (by simp) (by simp)).1

lemma colToTable_buckets (ns : List String) :
    ∀ p ∈ colToTable ns, p.2 = bucketSpec ns p.1 := by
  have h := (colToTable_inv ns [] [] (by simp) (by simp) (by simp)).2.1
  simpa [colToTable] using h

lemma colToTable_covers (ns : List String) :
    ∀ x ∈ ns, tableName x ∈ (colToTable ns).map Prod.fst := by
  have h := (colToTable_inv ns [] [] (by simp) (by simp) (by simp)).2.2
  intro x hx
  exact h x (by simpa using hx)

lemma entry_eq_of_fst_nodup :
    ∀ (l : List (String × List String)), (l.map Prod.fst).Nodup →
      ∀ p q, p ∈ l → q ∈ l → p.1 = q.1 → p = q := by
  intro l
  induction l with
  | nil => intro _ p q hp _ _; cases hp
  | cons a l ih =>
    intro hnodup p q hp hq hk
    have h1 : a.1 ∉ l.map Prod.fst ∧ (l.map Prod.fst).Nodup := by
      simpa [List.nodup_cons] using hnodup
    rcases List.mem_cons.mp hp with hpa | hp
    · rcases List.mem_cons.mp hq with hqa | hq
      · rw [hpa, hqa]
      · have hq1 : q.1 ∈ l.map Prod.fst := List.mem_map_of_mem Prod.fst hq
        rw [← hk, hpa] at hq1
        exact absurd hq1 h1.1
    · rcases List.mem_cons.mp hq with hqa | hq
      · have hp1 : p.1 ∈ l.map Prod.fst := List.mem_map_of_mem Prod.fst hp
        rw [hk, hqa] at hp1
        exact absurd hp1 h1.1
      · exact ih h1.2 p q hp hq hk

lemma hasColumn_cons (p : String × List (Option String))
    (cs : List (String × List (Option String))) (n : String) :
    hasColumn (p :: cs) n = (decide (p.1 = n) || hasColumn cs n) := by
  by_cases h : p.1 = n <;> simp [hasColumn, List.find?_cons, h]

lemma hasColumn_append (cs ds : List (String × List (Option String))) (n : String) :
    hasColumn (cs ++ ds) n = (hasColumn cs n || hasColumn ds n) := by
  induction cs with
  | nil => simp [hasColumn]
  | cons p cs ih => simp [hasColumn_cons, ih, Bool.or_assoc]

lemma setCol_fresh {cs : List (String × List (Option String))} {n : String}
    (h : hasColumn cs n = false) (v : List (Option String)) :
    setCol cs n v = cs ++ [(n, v)] := by
  simp [setCol, h]

lemma foldl_setCol_fresh :
    ∀ (ncs : List (Nat × String)) (cs : List (String × List (Option String)))
      (f : Nat → List (Option String)),
      (∀ p ∈ ncs, hasColumn cs p.2 = false) →
      ((ncs.map Prod.snd).Nodup) →
      ncs.foldl (fun acc p => setCol acc p.2 (f p.1)) cs
        = cs ++ ncs.map (fun p => (p.2, f p.1)) := by
  intro ncs
  induction ncs with
  | nil => intro cs f _ _; simp
  | cons p ncs ih =>
    intro cs f hfresh hnodup
    simp only [List.foldl_cons]
    rw [setCol_fresh (hfresh p (by simp)) (f p.1)]
    have hnodup2 : p.2 ∉ ncs.map Prod.snd ∧ (ncs.map Prod.snd).Nodup := by
      simpa [List.nodup_cons] using hnodup
    have hfresh2 : ∀ q ∈ ncs, hasColumn (cs ++ [(p.2, f p.1)]) q.2 = false := by
      intro q hq
      rw [hasColumn_append]
      have h1 : hasColumn cs q.2 = false := hfresh q (List.mem_cons_of_mem _ hq)
      have hne : q.2 ≠ p.2 := by
        intro he
        exact hnodup2.1 (he ▸ List.mem_map_of_mem Prod.snd hq)
      have h2 : hasColumn [(p.2, f p.1)] q.2 = false := by
        simp [hasColumn_cons, hasColumn, Ne.symm hne]
      rw [h1, h2]
      rfl
    rw [ih (cs ++ [(p.2, f p.1)]) f hfresh2 hnodup2.2]
    simp

lemma cellsFor_get? (parsed : List (List String)) (i : Nat) :
    cellsFor parsed i = parsed.map (fun x => x.get? i) := by
  unfold cellsFor
  congr 1
  funext x
  by_cases h : i < x.length
  · simp [h]
  · rw [if_neg h]
    exact (List.get?_len_le (Nat.le_of_not_lt h)).symm

lemma hasPeriod_posColName (col : String) (x : Nat) : hasPeriod (posColName col x) = true := by
  have hl : (posColName col x).data
      = ((basename col).data ++ ['.']) ++ (toString (x + 1)).data := rfl
  simp [hasPeriod, String.toList, hl]

lemma posColName_ne_of_noPeriod {col : String} (h : hasPeriod col = false) (x : Nat) :
    posColName col x ≠ col := by
  intro he
  rw [← he, hasPeriod_posColName] at h
  cases h

lemma dropCol_append (cs ds : List (String × List (Option String))) (n : String) :
    dropCol (cs ++ ds) n = dropCol cs n ++ dropCol ds n := by
  simp [dropCol, List.filter_append]

lemma dropCol_of_ne {ds : List (String × List (Option String))} {n : String}
    (h : ∀ p ∈ ds, p.1 ≠ n) : dropCol ds n = ds :=
  List.filter_eq_self.mpr (fun p hp => by simpa using h p hp)

/-- C1: for every flat table (given by its column names) and every column
name in it, the routing of `edit_feather_to_sql` is total and exhaustive: a
name without a period goes to the primary selection and to no satellite
bucket, and a name with a period is excluded from the primary selection and
lies in exactly one satellite bucket, the one named by the text before its
first period; hence no column is dropped and none lands in two
partitions. -/
theorem routing_total_exhaustive (cols : List String) (c : String) (hc : c ∈ cols) :
    (hasPeriod c = false →
      c ∈ noPeriodNames cols ∧ ∀ g ∈ colToTable (periodNames cols), c ∉ g.2)
    ∧ (hasPeriod c = true →
      c ∉ noPeriodNames cols ∧
      ∃ g ∈ colToTable (periodNames cols),
        g.1 = tableName c ∧ c ∈ g.2 ∧
        ∀ g2 ∈ colToTable (periodNames cols), c ∈ g2.2 → g2 = g) := by
  constructor
  · intro h
    constructor
    · exact List.mem_filter.mpr ⟨hc, by simp [h]⟩
    · intro g hg hcg
      rw [colToTable_buckets _ g hg] at hcg
      have : c ∈ periodNames cols := List.mem_filter.mp hcg |>.1
      have hp : hasPeriod c = true := by simpa [periodNames] using (List.mem_filter.mp this).2
      rw [h] at hp
      cases hp
  · intro h
    constructor
    · intro hmem
      have : (!hasPeriod c) = true := (List.mem_filter.mp hmem).2
      rw [h] at this
      cases this
    · have hcp : c ∈ periodNames cols := List.mem_filter.mpr ⟨hc, by simp [h]⟩
      have hk : tableName c ∈ (colToTable (periodNames cols)).map Prod.fst :=
        colToTable_covers _ _ hcp
      obtain ⟨g, hg, hgf⟩ := List.mem_map.mp hk
      refine ⟨g, hg, hgf, ?_, ?_⟩
      · rw [colToTable_buckets _ g hg, hgf]
        simp [bucketSpec, List.mem_filter, hcp]
      · intro g2 hg2 hcg2
        rw [colToTable_buckets _ g2 hg2] at hcg2
        have hfst : tableName c = g2.1 := by
          have h2 : c ∈ periodNames cols ∧ tableName c = g2.1 := by
            simpa [bucketSpec] using hcg2
          exact h2.2
        exact entry_eq_of_fst_nodup _ (colToTable_keys_nodup _) g2 g hg2 hg (by rw [← hfst, hgf])

/-- Witness for the C1 routing theorem at a concrete table and column. -/
theorem routing_total_exhaustive_witness :
    (hasPeriod "outcome.winner" = false →
      "outcome.winner" ∈ noPeriodNames ["venue", "outcome.winner", "date.1"] ∧
        ∀ g ∈ colToTable (periodNames ["venue", "outcome.winner", "date.1"]),
          "outcome.winner" ∉ g.2)
    ∧ (hasPeriod "outcome.winner" = true →
      "outcome.winner" ∉ noPeriodNames ["venue", "outcome.winner", "date.1"] ∧
      ∃ g ∈ colToTable (periodNames ["venue", "outcome.winner", "date.1"]),
        g.1 = tableName "outcome.winner" ∧ "outcome.winner" ∈ g.2 ∧
        ∀ g2 ∈ colToTable (periodNames ["venue", "outcome.winner", "date.1"]),
          "outcome.winner" ∈ g2.2 → g2 = g) :=
  routing_total_exhaustive ["venue", "outcome.winner", "date.1"] "outcome.winner" (by decide)

/-- C9: running the persist step twice on an unchanged flattened input
produces identical persisted relations: every `to_sql` call uses full
replace semantics, so the second run returns exactly the store and error of
the first — no accumulation, no change. -/
theorem persist_idempotent (s : Store) (raw : List (String × List String)) :
    edit_feather_to_sql (edit_feather_to_sql s raw).1 raw = edit_feather_to_sql s raw := by
  unfold edit_feather_to_sql
  cases h : edit_and_write_info raw with
  | error e => rfl
  | ok df =>
    simp only [runPairs, edit_and_write_innings]
    rw [writeTables_idem]

/-- C7: every relation persisted for a dataframe — the primary one and each
satellite — carries the document-identifier index of that dataframe
unchanged (so all partitions are joinable on it), and the frame built by
`edit_and_write_info` is indexed by `MATCHID`. -/
theorem partitions_keep_identifier :
    (∀ (dbname : String) (df : Frame) (p : String × Frame), p ∈ writesOf dbname df →
      p.2.indexName = df.indexName ∧ p.2.index = df.index)
    ∧ (∀ (raw : List (String × List String)) (df : Frame),
        edit_and_write_info raw = .ok df → df.indexName = "MATCHID") := by
  constructor
  · intro dbname df p hp
    rcases List.mem_cons.mp hp with hph | hpt
    · rw [hph]
      exact ⟨rfl, rfl⟩
    · obtain ⟨g, _, hge⟩ := List.mem_map.mp hpt
      rw [← hge]
      exact ⟨rfl, rfl⟩
  · intro raw df h
    unfold edit_and_write_info at h
    split at h
    · cases h
    · exact (foldlM_processListCol_index list_cols_info _ df h).1

/-- Witness for the C7 theorem: a satellite write of a concrete frame keeps
index name and index, and a concrete run of `edit_and_write_info` is
indexed by MATCHID. -/
theorem partitions_keep_identifier_witness :
    (((("team" : String),
        (⟨"MATCHID", ["7"], [("team.1", [some "India"])]⟩ : Frame)) : String × Frame).2.indexName
      = (⟨"MATCHID", ["7"],
          [("venue", [some "MCG"]), ("team.1", [some "India"])]⟩ : Frame).indexName
    ∧ ((("team" : String),
        (⟨"MATCHID", ["7"], [("team.1", [some "India"])]⟩ : Frame)) : String × Frame).2.index
      = (⟨"MATCHID", ["7"],
          [("venue", [some "MCG"]), ("team.1", [some "India"])]⟩ : Frame).index)
    ∧ (⟨"MATCHID", ["7"],
        [("player_of_matc.1", [some ""]), ("team.1", [some ""]),
         ("umpire.1", [some ""])]⟩ : Frame).indexName = "MATCHID" :=
  ⟨partitions_keep_identifier.1 "matchinfo"
      ⟨"MATCHID", ["7"], [("venue", [some "MCG"]), ("team.1", [some "India"])]⟩
      ("team", ⟨"MATCHID", ["7"], [("team.1", [some "India"])]⟩) (by decide),
   partitions_keep_identifier.2
      [("ID", ["7"]), ("dates", ["[]"]), ("player_of_match", ["[]"]),
       ("teams", ["[]"]), ("umpires", ["[]"])] _ rfl⟩

/-- C2 counterexample: a batch of one document whose declared list field
`teams` is the empty list.  The maximum list length observed in the batch
is 0, so the claim demands no positional column at all — but the code
produces `team.1` holding the empty string, because `str([])` sliced by
`[1:-1]` is the empty string and `''.split(', ')` is `['']`. -/
theorem positional_columns_cex :
    ([] : List String).length = 0
    ∧ processListCol ⟨"MATCHID", ["1"], [("teams", [some (pyStrList [])])]⟩ "teams"
        = .ok ⟨"MATCHID", ["1"], [("team.1", [some ""])]⟩
    ∧ ([("team.1", [some ""])] : List (String × List (Option String))) ≠ [] :=
  ⟨rfl, rfl, by simp⟩

/-- C3 counterexample: for the declared list field `player_of_match` the
code strips the final character `h`, which is no pluralizing character:
the positional column is named `player_of_matc.1`, whereas the spec-side
strip-a-plural-marker reading leaves `player_of_match` unchanged. -/
theorem basename_cex :
    basename "player_of_match" = "player_of_matc"
    ∧ stripPluralMarker "player_of_match" = "player_of_match"
    ∧ basename "player_of_match" ≠ stripPluralMarker "player_of_match"
    ∧ (pyNewcols "player_of_match" 1).map Prod.snd = ["player_of_matc.1"] :=
  ⟨rfl, rfl, by decide, rfl⟩

/-- C3 amended: the basename is the field name with its final character
stripped, whatever that character is — dates, teams and umpires lose their
plural s, but player_of_match becomes player_of_matc — and every
positional column is named basename.i with a 1-based position. -/
theorem basename_drops_last :
    basename "dates" = "date" ∧ basename "teams" = "team"
    ∧ basename "umpires" = "umpire" ∧ basename "player_of_match" = "player_of_matc"
    ∧ ∀ col n, (pyNewcols col n).map Prod.snd
        = (List.range n).map (fun x => basename col ++ "." ++ toString (x + 1)) := by
  refine ⟨rfl, rfl, rfl, rfl, ?_⟩
  intro col n
  simp [pyNewcols, posColName, List.map_map]

/-- C4: the spec scenario with dates [[2020,1,5]], [[2020,3,15],[2020,3,16]]
and [].  Python prints single-digit months without padding, but the
extraction regex demands a two-digit month, so all three rows parse to zero
dates, max_length is 0, no date.1 or date.2 column is created and the dates
column is simply dropped — contradicting the claimed date.1 = 2020-01-05
and date.2 = 2020-03-16.  The final conjunct shows that two-digit months do
get extracted and padded, locating the slip in the month pattern. -/
theorem dates_scenario_drops_all :
    parseDates "[datetime.date(2020, 1, 5)]" = []
    ∧ parseDates "[datetime.date(2020, 3, 15), datetime.date(2020, 3, 16)]" = []
    ∧ processListCol ⟨"MATCHID", ["1", "2", "3"],
        [("dates", [some "[datetime.date(2020, 1, 5)]",
                    some "[datetime.date(2020, 3, 15), datetime.date(2020, 3, 16)]",
                    some "[]"])]⟩ "dates"
      = .ok ⟨"MATCHID", ["1", "2", "3"], []⟩
    ∧ parseDates "[datetime.date(2020, 10, 5)]" = ["2020-10-05"] :=
  ⟨rfl, rfl, rfl, rfl⟩

/-- C5: a document with teams ["India", "Australia"] yields
team.1 = "India" and team.2 = "Australia": the generic branch only strips
the surrounding brackets and the quote characters and splits on the
separator — no zero padding is applied to non-date list elements. -/
theorem teams_scenario :
    parseGeneric (pyStrList ["India", "Australia"]) = ["India", "Australia"]
    ∧ processListCol
        ⟨"MATCHID", ["1"], [("teams", [some (pyStrList ["India", "Australia"])])]⟩ "teams"
      = .ok ⟨"MATCHID", ["1"],
          [("team.1", [some "India"]), ("team.2", [some "Australia"])]⟩ :=
  ⟨rfl, rfl⟩

/-- C6: a batch where document 1 lacks the umpires field (its cell is the
astype(str) rendering of NaN) while document 2 has two umpires.  Flattening
does not raise, but document 1 receives the string "a" — the middle
character of "nan" — in umpire.1 instead of the null the claim requires;
umpire.2 is null as claimed. -/
theorem missing_umpires_scenario :
    parseGeneric nanCell = ["a"]
    ∧ processListCol ⟨"MATCHID", ["1", "2"],
        [("umpires", [some nanCell, some (pyStrList ["A B", "C D"])])]⟩ "umpires"
      = .ok ⟨"MATCHID", ["1", "2"],
          [("umpire.1", [some "a", some "A B"]), ("umpire.2", [none, some "C D"])]⟩
    ∧ (some "a" : Option String) ≠ none :=
  ⟨rfl, rfl, by simp⟩

/-- C8: the write loop is supposed to persist both kinds, but
`edit_and_write_innings` is the stub `return None`, so after the info frame
is written (primary `matchinfo` plus its satellites) the loop raises
`AttributeError` on `None.filter` and nothing named `innings` is ever
persisted (independently, `get_sql_db_fname` has no `innings` entry at
all). -/
theorem innings_never_persisted :
    (edit_feather_to_sql (fun _ => none) sampleRaw).2 = some attrErr
    ∧ (edit_feather_to_sql (fun _ => none) sampleRaw).1 "innings" = none
    ∧ (edit_feather_to_sql (fun _ => none) sampleRaw).1 "matchinfo"
        = some ⟨"MATCHID", ["7"], [("venue", [some "MCG"])]⟩
    ∧ (edit_feather_to_sql (fun _ => none) sampleRaw).1 "date"
        = some ⟨"MATCHID", ["7"], [("date.1", [some "2020-10-05"])]⟩ :=
  ⟨rfl, rfl, rfl, rfl⟩

/-- C10: the recursive call of `access_dict` passes `keys[1:]` as a single
positional argument instead of unpacking it, so the inner frame subscripts
with the whole tuple.  For the nested dict `{'a': {'b': 1}}` and keys
`('a', 'b')` the claim requires the value 1; the code returns None (the
tuple lookup raises KeyError, caught by the inner frame).  With one key and
a non-subscriptable value the code even raises an uncaught TypeError where
the claim requires the value.  Only the empty key sequence behaves as
claimed. -/
theorem access_dict_tuple_bug :
    access_dict (.vdict [(.kstr "a", .vdict [(.kstr "b", .vint 1)])])
        [.kstr "a", .kstr "b"] = .ok none
    ∧ (Except.ok none : Except PyExc (Option PyVal)) ≠ .ok (some (.vint 1))
    ∧ access_dict (.vdict [(.kstr "a", .vint 5)]) [.kstr "a"] = .error .typeError
    ∧ access_dict (.vdict [(.kstr "a", .vint 5)]) []
        = .ok (some (.vdict [(.kstr "a", .vint 5)])) :=
  ⟨rfl, fun h => Option.noConfusion (Except.ok.inj h), rfl, rfl⟩

/-- C2 amended: let N be the maximum number of PARSED elements over the
batch — a cell parses by stripping the bracket slice, removing quotes and
splitting on the separator, so an empty or missing list contributes one
empty-string element, and date entries whose month prints with a single
digit are dropped by the two-digit month regex.  Then the expansion
appends exactly the positional columns basename.1 .. basename.N for the
field, in order; each row holds its i-th parsed element at position i and
null where its parsed sequence is shorter; no positional column beyond N
exists; and the original column is dropped. -/
theorem positional_columns_parsed (df : Frame) (col : String)
    (cells : List (Option String))
    (hget : getCol df.cols col = some cells)
    (hne : cells ≠ [])
    (hnodot : hasPeriod col = false)
    (hfresh : ∀ x, x < maxLength ((cells.map (fun v => v.getD "")).map (parseFor col)) →
      hasColumn df.cols (posColName col x) = false)
    (hnodup : ((pyNewcols col
        (maxLength ((cells.map (fun v => v.getD "")).map (parseFor col)))).map
          Prod.snd).Nodup) :
    processListCol df col = .ok ⟨df.indexName, df.index,
      dropCol df.cols col ++
        (List.range (maxLength ((cells.map (fun v => v.getD "")).map (parseFor col)))).map
          (fun i => (posColName col i,
            ((cells.map (fun v => v.getD "")).map (parseFor col)).map
              (fun x => x.get? i)))⟩ := by
  rcases hx : (cells.map (fun v => v.getD "")).map (parseFor col) with _ | ⟨p, ps⟩
  · exfalso
    apply hne
    have hlen : cells.length = 0 := by simpa using congrArg List.length hx
    exact List.length_eq_zero.mp hlen
  · rw [hx] at hfresh hnodup
    simp only [processListCol, hget, hx]
    have hassign : assignNewcols df.cols col (p :: ps)
        = df.cols ++ (pyNewcols col (maxLength (p :: ps))).map
            (fun q => (q.2, cellsFor (p :: ps) q.1)) := by
      apply foldl_setCol_fresh
      · intro q hq
        simp only [pyNewcols, List.mem_map, List.mem_range] at hq
        obtain ⟨x, hxN, rfl⟩ := hq
        exact hfresh x hxN
      · exact hnodup
    have hdrop2 : dropCol ((pyNewcols col (maxLength (p :: ps))).map
        (fun q => (q.2, cellsFor (p :: ps) q.1))) col
        = (pyNewcols col (maxLength (p :: ps))).map
            (fun q => (q.2, cellsFor (p :: ps) q.1)) := by
      apply dropCol_of_ne
      intro q hq
      simp only [pyNewcols, List.map_map, List.mem_map, List.mem_range] at hq
      obtain ⟨x, _, rfl⟩ := hq
      exact posColName_ne_of_noPeriod hnodot x
    have hcols : dropCol (assignNewcols df.cols col (p :: ps)) col
        = dropCol df.cols col ++ (List.range (maxLength (p :: ps))).map
            (fun i => (posColName col i, (p :: ps).map (fun x => x.get? i))) := by
      rw [hassign, dropCol_append, hdrop2]
      congr 1
      simp only [pyNewcols, List.map_map]
      refine List.map_congr_left ?_
      intro i _
      simp only [Function.comp]
      rw [cellsFor_get?]
    rw [hcols]

/-- Witness for the C2 amended theorem at the concrete teams batch. -/
theorem positional_columns_parsed_witness :
    processListCol
        ⟨"MATCHID", ["1"], [("teams", [some (pyStrList ["India", "Australia"])])]⟩ "teams"
      = .ok ⟨"MATCHID", ["1"],
          dropCol [("teams", [some (pyStrList ["India", "Australia"])])] "teams" ++
            (List.range (maxLength (([some (pyStrList ["India", "Australia"])].map
                (fun v => v.getD "")).map (parseFor "teams")))).map
              (fun i => (posColName "teams" i,
                (([some (pyStrList ["India", "Australia"])].map
                    (fun v => v.getD "")).map (parseFor "teams")).map
                  (fun x => x.get? i)))⟩ :=
  positional_columns_parsed
    ⟨"MATCHID", ["1"], [("teams", [some (pyStrList ["India", "Australia"])])]⟩ "teams"
    [some (pyStrList ["India", "Australia"])] rfl (by simp) (by decide)
    (by decide) (by decide)
